import Mathlib

/-!
Shallow embedding of the AI tool-use core of the flareup repository
(src/src-tauri/src/ai.rs and src/src-tauri/src/ai_tools.rs), together with
theorems checking the natural-language specification against it.

Modelling conventions:
* Rust `Result<String, String>` becomes `Except String String`.
* Filesystem paths are lists of components (`Path := List String`);
  `PathBuf::from` on a string is `parsePath` (split on `/`, dropping empties),
  `Path::starts_with` is component-wise `List.isPrefixOf`, and `Path::parent`
  drops the last component (none for the empty path).
* All effectful platform calls (canonicalize, metadata, read, read_dir, regex
  compilation, process spawning, clipboard, sysinfo sampling) are fields of an
  abstract `World` record, so each theorem quantifies over every possible
  behaviour of the platform.
* `serde_json` values are the minimal inductive `Json`; the streaming-frame
  JSON parse is an explicit function parameter of the decoder.
-/

/-- Minimal JSON value model (serde_json::Value). -/
inductive Json where
  | null
  | bool (b : Bool)
  | num (n : Int)
  | str (s : String)
  | arr (elems : List Json)
  | obj (fields : List (String × Json))

/-- `args.get(key).and_then(|v| v.as_str())`: string field lookup on an object. -/
def Json.getStr (j : Json) (key : String) : Option String :=
  match j with
  | .obj fields =>
    match fields.lookup key with
    | some (.str s) => some s
    | _ => none
  | _ => none

/-- ai_tools.rs: `pub enum ToolSafety { Safe, Dangerous }`. -/
inductive ToolSafety where
  | Safe
  | Dangerous
deriving DecidableEq, Repr

/-- ai_tools.rs: `pub enum BuiltinTool`. -/
inductive BuiltinTool where
  | ReadFile
  | WriteFile
  | ListDirectory
  | SearchFiles
  | DeleteFile
  | GetSystemInfo
  | RunCommand
  | ReadClipboard
  | WriteClipboard
deriving DecidableEq, Repr

/-- ai_tools.rs: `BuiltinTool::name`. -/
def BuiltinTool.name : BuiltinTool → String
  | .ReadFile => "read_file"
  | .WriteFile => "write_file"
  | .ListDirectory => "list_directory"
  | .SearchFiles => "search_files"
  | .DeleteFile => "delete_file"
  | .GetSystemInfo => "get_system_info"
  | .RunCommand => "run_command"
  | .ReadClipboard => "read_clipboard"
  | .WriteClipboard => "write_clipboard"

/-- ai_tools.rs: `BuiltinTool::safety`. -/
def BuiltinTool.safety : BuiltinTool → ToolSafety
  | .ReadFile | .ListDirectory | .SearchFiles | .GetSystemInfo => ToolSafety.Safe
  | .WriteFile | .DeleteFile | .RunCommand | .ReadClipboard | .WriteClipboard =>
      ToolSafety.Dangerous

/-- ai_tools.rs: `BuiltinTool::from_name`. -/
def BuiltinTool.from_name (name : String) : Option BuiltinTool :=
  match name with
  | "read_file" => some .ReadFile
  | "write_file" => some .WriteFile
  | "list_directory" => some .ListDirectory
  | "search_files" => some .SearchFiles
  | "delete_file" => some .DeleteFile
  | "get_system_info" => some .GetSystemInfo
  | "run_command" => some .RunCommand
  | "read_clipboard" => some .ReadClipboard
  | "write_clipboard" => some .WriteClipboard
  | _ => none

/-- Filesystem paths as component lists. -/
abbrev FsPath : Type := List String

/-- `str::split(sep)` over the character list: every occurrence of the
separator starts a new piece (n separators yield n+1 pieces). -/
def splitCharsAux (sep : Char) : List Char → List Char → List (List Char)
  | [], cur => [cur.reverse]
  | c :: rest, cur =>
    if c = sep then cur.reverse :: splitCharsAux sep rest []
    else splitCharsAux sep rest (c :: cur)

/-- Split a string at every occurrence of a separator character. -/
def splitOnChar (sep : Char) (s : String) : List String :=
  (splitCharsAux sep s.data []).map String.mk

/-- `str::starts_with` on strings. -/
def strStartsWith (s pre : String) : Bool :=
  List.isPrefixOf pre.data s.data

/-- `str::trim`: strip whitespace from both ends. -/
def trimChars (s : String) : String :=
  String.mk (((s.data.dropWhile Char.isWhitespace).reverse.dropWhile Char.isWhitespace).reverse)

/-- `str::replace` for a single-character pattern (the only shape the source
uses): every occurrence of the character is replaced by the given string. -/
def replaceChar (s : String) (c : Char) (rep : String) : String :=
  String.mk (s.data.flatMap (fun ch => if ch = c then rep.data else [ch]))

/-- `PathBuf::from` on a string: split on `/`, empty components dropped. -/
def parsePath (s : String) : FsPath :=
  (splitOnChar '/' s).filter (fun c => ¬ c.isEmpty)

/-- `Path::parent`: drop the final component; `none` when there is none. -/
def pathParent (p : FsPath) : Option FsPath :=
  match p with
  | [] => none
  | _ => some ((p : List String).dropLast)

/-- `Path::starts_with`: component-wise prefix test. -/
def pathStartsWith (pre p : FsPath) : Bool :=
  List.isPrefixOf (pre : List String) (p : List String)

/-- Captured stdout/stderr/status of a spawned process (std::process::Output). -/
structure CmdOut where
  success : Bool
  code : Option Int
  stdout : String
  stderr : String

/-- One entry returned by `fs::read_dir`, with its (fallible) file type. -/
structure DirEntry where
  entryName : String
  isDirEntry : Option Bool
  isSymlinkEntry : Option Bool

/-- In-memory directory tree used by the search walk: each node is one
`read_dir` entry (name, and the sub-entries when it is a directory). -/
inductive FsTree where
  | file (n : String)
  | dir (n : String) (entries : List FsTree)
deriving Repr

/-- The `file_name` of a tree entry. -/
def FsTree.name : FsTree → String
  | .file n => n
  | .dir n _ => n

/-- Abstract platform: every effectful call the executors make. Theorems
quantify over all worlds, so they hold for every platform behaviour. -/
structure World where
  /-- `Path::canonicalize`; `none` models an `Err` (e.g. the path does not exist). -/
  canon : FsPath → Option FsPath
  /-- `fs::metadata(..).len()` in bytes, or the io error text. -/
  fsize : FsPath → Except String Nat
  /-- `fs::read_to_string`, or the io error text. -/
  readToString : FsPath → Except String String
  /-- `fs::read_dir` (entries whose per-entry `Result` was `Ok`), or the io error text. -/
  readDir : FsPath → Except String (List DirEntry)
  /-- The recursive listing rooted at a directory, as seen by the search walk;
  `Except String` models the top-level `read_dir` failure that propagates. -/
  treeAt : FsPath → Except String (List FsTree)
  /-- `regex::Regex::new` followed by `is_match`: compile a regex source string
  into a name matcher, or fail with the regex error text. -/
  regexCompile : String → Except String (String → Bool)
  /-- `fs::create_dir_all`, or the io error text. -/
  createDirAll : FsPath → Except String Unit
  /-- `fs::write`, or the io error text. -/
  writeFs : FsPath → String → Except String Unit
  /-- `Command::new("bash").arg("-c").arg(cmd).output()` (spawn assumed to succeed). -/
  run : String → CmdOut
  /-- The structured text produced by the sysinfo sampling in `execute_get_system_info`. -/
  sysInfo : String
  /-- `fs::remove_dir_all`: `none` models success, `some e` the io error text. -/
  removeDirAllErr : FsPath → Option String
  /-- `fs::remove_file`: `none` models success, `some e` the io error text. -/
  removeFileErr : FsPath → Option String
  /-- Outcome of the clipboard-read process chain (xclip / xsel / wl-paste). -/
  clipReadRes : Except String CmdOut
  /-- Exit-status success of the clipboard-write process chain; `none` models spawn failure. -/
  clipWrite : String → Option Bool

/-- ai_tools.rs: `MAX_FILE_READ_SIZE = 5 * 1024 * 1024`. -/
def MAX_FILE_READ_SIZE : Nat := 5 * 1024 * 1024

/-- The target-resolution step of `is_path_allowed` (ai_tools.rs 300-313):
canonicalize the path; when that fails, canonicalize its parent instead; no
parent (or a parent that also fails) resolves to nothing. -/
def resolveTarget (w : World) (path : FsPath) : Option FsPath :=
  match w.canon path with
  | some p => some p
  | none =>
    match pathParent path with
    | some parent => w.canon parent
    | none => none

/-- ai_tools.rs: `is_path_allowed`. The target is canonicalized (falling back
to its parent when canonicalization fails); dirs that fail to canonicalize are
skipped; an empty allow-list denies. -/
def is_path_allowed (w : World) (path : FsPath) (allowed_dirs : List String) : Bool :=
  if allowed_dirs.isEmpty then
    false
  else
    match resolveTarget w path with
    | none => false
    | some p =>
      allowed_dirs.any (fun allowed =>
        match w.canon (parsePath allowed) with
        | some allowed_path => pathStartsWith allowed_path p
        | none => false)

/-- ai_tools.rs: `execute_read_file`. Gating, then metadata, then the 5 MiB
size check, then the actual read. -/
def execute_read_file (w : World) (args : Json) (allowed_dirs : List String) :
    Except String String :=
  match args.getStr "path" with
  | none => .error "Missing 'path' argument"
  | some path_str =>
    let path := parsePath path_str
    if ¬ is_path_allowed w path allowed_dirs then
      .error ("Path '" ++ path_str ++ "' is not in allowed directories")
    else
      match w.fsize path with
      | .error e => .error ("Failed to read file metadata: " ++ e)
      | .ok size =>
        if MAX_FILE_READ_SIZE < size then
          .error ("File is too large (" ++ toString size ++ " bytes). Maximum size is "
                  ++ toString MAX_FILE_READ_SIZE ++ " bytes.")
        else
          match w.readToString path with
          | .ok content => .ok content
          | .error e => .error ("Failed to read file: " ++ e)

/-- ai_tools.rs: `execute_write_file`. -/
def execute_write_file (w : World) (args : Json) (allowed_dirs : List String) :
    Except String String :=
  match args.getStr "path" with
  | none => .error "Missing 'path' argument"
  | some path_str =>
    match args.getStr "content" with
    | none => .error "Missing 'content' argument"
    | some content =>
      let path := parsePath path_str
      if ¬ is_path_allowed w path allowed_dirs then
        .error ("Path '" ++ path_str ++ "' is not in allowed directories")
      else
        match (match pathParent path with
               | some parent => w.createDirAll parent
               | none => .ok ()) with
        | .error e => .error ("Failed to create directories: " ++ e)
        | .ok () =>
          match w.writeFs path content with
          | .error e => .error ("Failed to write file: " ++ e)
          | .ok () =>
            .ok ("Successfully wrote " ++ toString content.utf8ByteSize
                 ++ " bytes to " ++ path_str)

/-- ai_tools.rs: `execute_list_directory`. -/
def execute_list_directory (w : World) (args : Json) (allowed_dirs : List String) :
    Except String String :=
  match args.getStr "path" with
  | none => .error "Missing 'path' argument"
  | some path_str =>
    let path := parsePath path_str
    if ¬ is_path_allowed w path allowed_dirs then
      .error ("Path '" ++ path_str ++ "' is not in allowed directories")
    else
      match w.readDir path with
      | .error e => .error ("Failed to read directory: " ++ e)
      | .ok entries =>
        .ok (String.intercalate "\n" (entries.map (fun e =>
          let suffix :=
            if e.isDirEntry = some true then "/"
            else if e.isSymlinkEntry = some true then "@"
            else ""
          e.entryName ++ suffix)))

/-- ai_tools.rs: the glob-to-regex translation inside `execute_search_files`:
`*` becomes `.*`, `?` becomes `.`, and the result is anchored at both ends. -/
def anchoredGlobRegex (pattern : String) : String :=
  "^" ++ replaceChar (replaceChar pattern '*' ".*") '?' "." ++ "$"

mutual

/-- ai_tools.rs: `search_recursive`. Returns immediately when the depth is
exhausted or 100 matches have already accumulated; otherwise walks the
directory entries in order. -/
def search_recursive (m : String → Bool) (entries : List FsTree) (depth : Nat)
    (matches_acc : List String) : List String :=
  if depth = 0 ∨ 100 ≤ matches_acc.length then matches_acc
  else searchEntriesLoop m entries depth matches_acc
termination_by (sizeOf entries, 1)

/-- The `for entry in entries` loop body of `search_recursive`: match each
entry name against the pattern (pushing it on a match), then recurse into
directory entries with `depth - 1`. -/
def searchEntriesLoop (m : String → Bool) (entries : List FsTree) (depth : Nat)
    (matches_acc : List String) : List String :=
  match entries with
  | [] => matches_acc
  | FsTree.file nm :: rest =>
    searchEntriesLoop m rest depth (if m nm then matches_acc ++ [nm] else matches_acc)
  | FsTree.dir nm sub :: rest =>
    searchEntriesLoop m rest depth
      (search_recursive m sub (depth - 1)
        (if m nm then matches_acc ++ [nm] else matches_acc))
termination_by (sizeOf entries, 0)

end

/-- ai_tools.rs: `execute_search_files`: gate the directory, translate the
glob, compile it, then run the bounded walk with max depth 5. -/
def execute_search_files (w : World) (args : Json) (allowed_dirs : List String) :
    Except String String :=
  match args.getStr "directory" with
  | none => .error "Missing 'directory' argument"
  | some dir_str =>
    match args.getStr "pattern" with
    | none => .error "Missing 'pattern' argument"
    | some pattern =>
      let dir := parsePath dir_str
      if ¬ is_path_allowed w dir allowed_dirs then
        .error ("Path '" ++ dir_str ++ "' is not in allowed directories")
      else
        match w.regexCompile (anchoredGlobRegex pattern) with
        | .error e => .error ("Invalid pattern: " ++ e)
        | .ok m =>
          match w.treeAt dir with
          | .error e => .error ("Failed to read directory: " ++ e)
          | .ok entries => .ok (String.intercalate "\n" (search_recursive m entries 5 []))

/-- Filesystem contents seen by `execute_delete_file`: existing entries paired
with their is-directory flag. -/
abbrev FsEntries : Type := List (FsPath × Bool)

/-- `path.is_dir()` over the entry list. -/
def entryIsDir (st : FsEntries) (p : FsPath) : Bool :=
  (st : List (FsPath × Bool)).any (fun e => e.1 = p ∧ e.2 = true)

/-- The documented effect of `std::fs::remove_dir_all`: the directory and
everything under it disappear. -/
def removeDirAllFs (p : FsPath) (st : FsEntries) : FsEntries :=
  (st : List (FsPath × Bool)).filter (fun e => ¬ pathStartsWith p e.1)

/-- The documented effect of `std::fs::remove_file`: exactly that path disappears. -/
def removeFileFs (p : FsPath) (st : FsEntries) : FsEntries :=
  (st : List (FsPath × Bool)).filter (fun e => e.1 ≠ p)

/-- ai_tools.rs: `execute_delete_file`, returning both the textual result and
the post-state of the filesystem. Directories are removed with
`remove_dir_all`, other paths with `remove_file`; either call can fail with
an io error, which is propagated as the `Failed to delete ...` error. On
failure the model leaves the entry list unchanged (the real partially-failed
state is unspecified; no theorem relies on the failure post-state). -/
def execute_delete_file (w : World) (st : FsEntries) (args : Json)
    (allowed_dirs : List String) : Except String String × FsEntries :=
  match args.getStr "path" with
  | none => (.error "Missing 'path' argument", st)
  | some path_str =>
    let path := parsePath path_str
    if ¬ is_path_allowed w path allowed_dirs then
      (.error ("Path '" ++ path_str ++ "' is not in allowed directories"), st)
    else if entryIsDir st path then
      match w.removeDirAllErr path with
      | some e => (.error ("Failed to delete directory: " ++ e), st)
      | none => (.ok ("Successfully deleted " ++ path_str), removeDirAllFs path st)
    else
      match w.removeFileErr path with
      | some e => (.error ("Failed to delete file: " ++ e), st)
      | none => (.ok ("Successfully deleted " ++ path_str), removeFileFs path st)

/-- ai_tools.rs: `execute_get_system_info` (sysinfo sampling abstracted into
the world; the source always returns `Ok`). -/
def execute_get_system_info (w : World) : Except String String :=
  .ok w.sysInfo

/-- ai_tools.rs: `execute_run_command`: run `bash -c cmd`, return stdout on
success, otherwise an error carrying the exit code and both streams. -/
def execute_run_command (w : World) (args : Json) : Except String String :=
  match args.getStr "command" with
  | none => .error "Missing 'command' argument"
  | some command =>
    let out := w.run command
    if out.success then
      .ok out.stdout
    else
      .error ("Command failed with exit code "
              ++ (match out.code with
                  | some c => "Some(" ++ toString c ++ ")"
                  | none => "None")
              ++ "\nstdout: " ++ out.stdout ++ "\nstderr: " ++ out.stderr)

/-- ai_tools.rs: `execute_read_clipboard`. -/
def execute_read_clipboard (w : World) : Except String String :=
  match w.clipReadRes with
  | .error e => .error ("Failed to read clipboard: " ++ e)
  | .ok out => if out.success then .ok out.stdout else .error "Failed to read clipboard"

/-- ai_tools.rs: `execute_write_clipboard`. -/
def execute_write_clipboard (w : World) (args : Json) : Except String String :=
  match args.getStr "content" with
  | none => .error "Missing 'content' argument"
  | some content =>
    match w.clipWrite content with
    | some true =>
      .ok ("Successfully copied " ++ toString content.utf8ByteSize ++ " bytes to clipboard")
    | _ => .error "Failed to write to clipboard"

/-- ai_tools.rs: `execute_tool`: look the tool up by name (unknown names
error) and dispatch to its executor. Only the path-gated executors receive
`allowed_dirs`; `run_command` never sees them. -/
def execute_tool (w : World) (st : FsEntries) (tool_name : String) (arguments : Json)
    (allowed_dirs : List String) : Except String String :=
  match BuiltinTool.from_name tool_name with
  | none => .error ("Unknown tool: " ++ tool_name)
  | some tool =>
    match tool with
    | .ReadFile => execute_read_file w arguments allowed_dirs
    | .WriteFile => execute_write_file w arguments allowed_dirs
    | .ListDirectory => execute_list_directory w arguments allowed_dirs
    | .SearchFiles => execute_search_files w arguments allowed_dirs
    | .DeleteFile => (execute_delete_file w st arguments allowed_dirs).1
    | .GetSystemInfo => execute_get_system_info w
    | .RunCommand => execute_run_command w arguments
    | .ReadClipboard => execute_read_clipboard w
    | .WriteClipboard => execute_write_clipboard w arguments

/-- One slot of the in-flight `tool_calls` vector built by the stream loop in
ai.rs (`{"id": .., "type": "function", "function": {"name": .., "arguments": ..}}`). -/
structure ToolCallSlot where
  id : String
  typ : String
  fnName : String
  arguments : String
deriving DecidableEq, Repr

/-- The placeholder pushed while growing the vector. -/
def emptyToolCallSlot : ToolCallSlot :=
  { id := "", typ := "function", fnName := "", arguments := "" }

/-- One element of a frame's `delta.tool_calls` array, after field extraction:
`index` (defaulted to 0 when absent), and the optional `id`,
`function.name` and `function.arguments` string fields. -/
structure StreamToolCallDelta where
  index : Nat
  deltaId : Option String
  deltaName : Option String
  deltaArgs : Option String
deriving DecidableEq, Repr

/-- ai.rs lines 993-1017: update one slot from one delta. A present `id` or
`function.name` overwrites the stored value (whatever it is); a present
`function.arguments` is appended to the stored string. -/
def applySlotDelta (slot : ToolCallSlot) (d : StreamToolCallDelta) : ToolCallSlot :=
  let slot :=
    match d.deltaId with
    | some s => { slot with id := s }
    | none => slot
  let slot :=
    match d.deltaName with
    | some s => { slot with fnName := s }
    | none => slot
  match d.deltaArgs with
  | some s => { slot with arguments := slot.arguments ++ s }
  | none => slot

/-- ai.rs lines 982-991: `while tool_calls.len() <= index { push placeholder }`. -/
def growSlots (slots : List ToolCallSlot) (n : Nat) : List ToolCallSlot :=
  slots ++ List.replicate (n - slots.length) emptyToolCallSlot

/-- Apply one streamed delta to the backing vector: grow it so index is in
bounds, then update the slot at that index in place. -/
def applyToolCallDelta (slots : List ToolCallSlot) (d : StreamToolCallDelta) :
    List ToolCallSlot :=
  let grown := growSlots slots (d.index + 1)
  grown.set d.index (applySlotDelta (grown.getD d.index emptyToolCallSlot) d)

/-- A resolved tool call as consumed by the execution phase (ai.rs 1080-1093). -/
structure ResolvedToolCall where
  id : String
  name : String
  arguments : Json

/-- ai.rs lines 1080-1093: read the slot's fields back; an argument string
that fails to parse as JSON resolves to the empty object. -/
def resolveToolCall (parse : String → Option Json) (slot : ToolCallSlot) :
    ResolvedToolCall :=
  { id := slot.id
    name := slot.fnName
    arguments := (parse slot.arguments).getD (Json.obj []) }

/-- The `delta` object of one streaming frame. -/
structure StreamDelta where
  content : Option String
  toolCalls : Option (List StreamToolCallDelta)
deriving Repr

/-- One parsed provider frame: `choices[0].finish_reason` (when it is a
string) and `choices[0].delta` (when present). -/
structure Frame where
  finishReason : Option String
  delta : Option StreamDelta
deriving Repr

/-- Per-round decoder state (ai.rs lines 921-923): accumulated text, the
tool-call vector, and the terminal flag. -/
structure RoundState where
  fullText : String
  toolCalls : List ToolCallSlot
  streamDone : Bool
deriving Repr

/-- The fresh state at the start of a round. -/
def initRoundState : RoundState :=
  { fullText := "", toolCalls := [], streamDone := false }

/-- ai.rs lines 939-1020: act on one successfully parsed frame. A
`finish_reason` of "stop" or "tool_calls" marks the round terminal; the same
frame's delta is still processed. Returns the new state and the texts emitted
as chunk events. -/
def processFrame (st : RoundState) (fr : Frame) : RoundState × List String :=
  let st :=
    if fr.finishReason = some "stop" ∨ fr.finishReason = some "tool_calls" then
      { st with streamDone := true }
    else st
  match fr.delta with
  | none => (st, [])
  | some d =>
    let (st, evs) :=
      match d.content with
      | some c => ({ st with fullText := st.fullText ++ c }, [c])
      | none => (st, [])
    match d.toolCalls with
    | some tcs => ({ st with toolCalls := tcs.foldl applyToolCallDelta st.toolCalls }, evs)
    | none => (st, evs)

/-- Frame-level parse used by the decoder: the payload string is parsed as
JSON and the finish-reason/delta views are extracted; `none` models any
parse failure (such payloads are skipped, ai.rs line 939). -/
abbrev FrameParse := String → Option Frame

/-- ai.rs lines 932-1023: the `for line in lines` loop over one read's worth
of lines. A payload equal (after trim) to the `[DONE]` sentinel sets the done
flag and abandons the remaining lines; unparsable payloads and lines without
the `data: ` marker are skipped. -/
def processChunkLines (parse : FrameParse) (st : RoundState) :
    List String → RoundState × List String
  | [] => (st, [])
  | line :: rest =>
    if strStartsWith line "data: " then
      let payload := line.drop 6
      if trimChars payload = "[DONE]" then
        ({ st with streamDone := true }, [])
      else
        match parse payload with
        | none => processChunkLines parse st rest
        | some fr =>
          let (st1, evs) := processFrame st fr
          let (st2, evs2) := processChunkLines parse st1 rest
          (st2, evs ++ evs2)
    else
      processChunkLines parse st rest

/-- ai.rs line 930-932: split one read's bytes into nonempty lines. -/
def splitChunkLines (chunk : String) : List String :=
  (splitOnChar '\n' chunk).filter (fun s => ¬ s.isEmpty)

/-- ai.rs lines 925-1024: the `while let Some(item) = stream.next()` loop.
Once the done flag is set, later reads are not acted upon. -/
def processChunks (parse : FrameParse) (st : RoundState) :
    List String → RoundState × List String
  | [] => (st, [])
  | chunk :: rest =>
    if st.streamDone then (st, [])
    else
      let (st1, evs) := processChunkLines parse st (splitChunkLines chunk)
      let (st2, evs2) := processChunks parse st1 rest
      (st2, evs ++ evs2)

/-- The tool-relevant fields of the session settings (ai.rs `AiSettings`);
the fields the orchestrator's tool phase reads. -/
structure AiSettings where
  allowed_directories : List String
  auto_approve_safe_tools : Bool
  auto_approve_all_tools : Bool

/-- ai.rs lines 1096-1099: safety of a tool call by name; an unknown name
classifies as Dangerous. -/
def safety_of_name (tool_name : String) : ToolSafety :=
  match BuiltinTool.from_name tool_name with
  | some t => t.safety
  | none => ToolSafety.Dangerous

/-- ai.rs lines 1121-1123: execution eligibility —
`auto_approve_all_tools || (auto_approve_safe_tools && safety == Safe)`. -/
def shouldExecuteTool (s : AiSettings) (safety : ToolSafety) : Bool :=
  s.auto_approve_all_tools || (s.auto_approve_safe_tools && safety == ToolSafety.Safe)

/-- ai.rs lines 1096-1132: per-tool-call decision of one round: if eligible,
run the sandbox executor; otherwise synthesize the confirmation-required
failure without touching the sandbox. -/
def runToolCall (w : World) (st : FsEntries) (s : AiSettings) (tool_name : String)
    (arguments : Json) : Except String String :=
  if shouldExecuteTool s (safety_of_name tool_name) then
    execute_tool w st tool_name arguments s.allowed_directories
  else
    .error ("Tool '" ++ tool_name ++ "' requires user confirmation (not yet implemented)")

/-- Provider behaviour for one round of the ask loop, from the orchestrator's
point of view: either the request/stream fails (transport error, non-success
status), or it yields the round's accumulated text and tool-call vector. -/
inductive ProviderResp where
  | fail (e : String)
  | round (fullText : String) (toolCalls : List ToolCallSlot)

/-- ai.rs line 884: `let max_tool_rounds = 10`. -/
def max_tool_rounds : Nat := 10

/-- Observable outcome of one ask-stream invocation: how many HTTP requests
were sent, how many stream-end events were emitted, and the returned value. -/
structure AskOutcome where
  requests : Nat
  streamEnds : Nat
  result : Except String Unit
deriving Repr

/-- ai.rs lines 887-1163: the round loop. Each iteration increments the round
counter, stops with success once the counter exceeds the budget, otherwise
sends one request; a transport failure aborts the whole ask; an empty
tool-call vector emits stream-end and stops; otherwise the loop continues. -/
def askLoopFrom (provider : Nat → ProviderResp) (tool_round requests streamEnds : Nat) :
    AskOutcome :=
  let round := tool_round + 1
  if max_tool_rounds < round then
    { requests := requests, streamEnds := streamEnds, result := .ok () }
  else
    match provider round with
    | .fail e =>
      { requests := requests + 1, streamEnds := streamEnds, result := .error e }
    | .round _ toolCalls =>
      if toolCalls.isEmpty then
        { requests := requests + 1, streamEnds := streamEnds + 1, result := .ok () }
      else
        askLoopFrom provider round (requests + 1) streamEnds
termination_by max_tool_rounds + 1 - tool_round
decreasing_by simp_wf; omega

/-- The loop as entered by `ai_ask_stream`: round counter 0, nothing sent. -/
def ai_ask_stream_loop (provider : Nat → ProviderResp) : AskOutcome :=
  askLoopFrom provider 0 0 0

/-- The entry names reachable by a walk of at most `depth` levels: nothing at
depth 0; otherwise the current entries' names plus, for directories, the names
reachable in the subtree with one level less. -/
def namesToDepth : Nat → List FsTree → List String
  | 0, _ => []
  | _ + 1, [] => []
  | d + 1, e :: rest =>
    e.name :: ((match e with
                | .file _ => []
                | .dir _ sub => namesToDepth d sub) ++ namesToDepth (d + 1) rest)
termination_by d es => (d, sizeOf es)

/-- Concatenation of the argument fragments carried by a list of deltas
(absent fragments contribute nothing). -/
def fragParts : List StreamToolCallDelta → String
  | [] => ""
  | d :: rest => d.deltaArgs.getD "" ++ fragParts rest

/-- A concrete platform where everything trivially succeeds; canonicalization
is the identity. Used to instantiate universally quantified theorems. -/
def trivialWorld : World :=
  { canon := fun p => some p
    fsize := fun _ => .ok 0
    readToString := fun _ => .ok ""
    readDir := fun _ => .ok []
    treeAt := fun _ => .ok []
    regexCompile := fun _ => .ok (fun _ => true)
    createDirAll := fun _ => .ok ()
    writeFs := fun _ _ => .ok ()
    run := fun _ => { success := true, code := some 0, stdout := "", stderr := "" }
    sysInfo := ""
    removeDirAllErr := fun _ => none
    removeFileErr := fun _ => none
    clipReadRes := .ok { success := true, code := some 0, stdout := "", stderr := "" }
    clipWrite := fun _ => some true }

/-- A concrete platform holding one readable file `/tmp/x/a.txt` with content
"hello"; canonicalization is the identity. -/
def containWorld : World :=
  { trivialWorld with
    fsize := fun p => if p = ["tmp", "x", "a.txt"] then .ok 5 else .error "No such file"
    readToString := fun p =>
      if p = ["tmp", "x", "a.txt"] then .ok "hello" else .error "No such file" }

/-- A concrete platform holding one file `/tmp/a.txt` one byte over the read
cap; canonicalization is the identity. -/
def bigFileWorld : World :=
  { trivialWorld with
    fsize := fun p => if p = ["tmp", "a.txt"] then .ok 5242881 else .error "No such file" }

/-- The textual payload of a provider frame carrying `finish_reason: "stop"`. -/
def stopFramePayload : String :=
  "\x7b\"choices\":[\x7b\"finish_reason\":\"stop\",\"delta\":\x7b\x7d\x7d]\x7d"

/-- The textual payload of a provider frame carrying the text delta "x". -/
def contentFramePayload : String :=
  "\x7b\"choices\":[\x7b\"delta\":\x7b\"content\":\"x\"\x7d\x7d]\x7d"

/-- The JSON parse restricted to the two demo payloads above, behaving on
them exactly as serde_json plus the field extraction of ai.rs does. -/
def demoParse : FrameParse := fun s =>
  if s = stopFramePayload then
    some { finishReason := some "stop", delta := some { content := none, toolCalls := none } }
  else if s = contentFramePayload then
    some { finishReason := none, delta := some { content := some "x", toolCalls := none } }
  else none

theorem applySlotDelta_id (slot : ToolCallSlot) (d : StreamToolCallDelta) :
    (applySlotDelta slot d).id = d.deltaId.getD slot.id := by
  cases hI : d.deltaId <;> cases hN : d.deltaName <;> cases hA : d.deltaArgs <;>
    simp [applySlotDelta, hI, hN, hA]

theorem applySlotDelta_fnName (slot : ToolCallSlot) (d : StreamToolCallDelta) :
    (applySlotDelta slot d).fnName = d.deltaName.getD slot.fnName := by
  cases hI : d.deltaId <;> cases hN : d.deltaName <;> cases hA : d.deltaArgs <;>
    simp [applySlotDelta, hI, hN, hA]

theorem applySlotDelta_arguments (slot : ToolCallSlot) (d : StreamToolCallDelta) :
    (applySlotDelta slot d).arguments = slot.arguments ++ d.deltaArgs.getD "" := by
  cases hI : d.deltaId <;> cases hN : d.deltaName <;> cases hA : d.deltaArgs <;>
    simp [applySlotDelta, hI, hN, hA]

theorem applySlotDelta_typ (slot : ToolCallSlot) (d : StreamToolCallDelta) :
    (applySlotDelta slot d).typ = slot.typ := by
  cases hI : d.deltaId <;> cases hN : d.deltaName <;> cases hA : d.deltaArgs <;>
    simp [applySlotDelta, hI, hN, hA]

theorem growSlots_length (slots : List ToolCallSlot) (n : Nat) :
    (growSlots slots n).length = max slots.length n := by
  simp [growSlots]
  omega

theorem getD_growSlots (slots : List ToolCallSlot) (n j : Nat) :
    (growSlots slots n).getD j emptyToolCallSlot = slots.getD j emptyToolCallSlot := by
  rcases Nat.lt_or_ge j slots.length with h | h
  · simp [growSlots, List.getD, List.getElem?_append, h]
  · simp [growSlots, List.getD, List.getElem?_append_right h]
    rcases Nat.lt_or_ge (j - slots.length) (n - slots.length) with h2 | h2
    · simp [List.getElem?_replicate, h2, List.getElem?_eq_none h]
    · simp [List.getElem?_eq_none, h, h2, List.length_replicate]

theorem applyToolCallDelta_length (slots : List ToolCallSlot) (d : StreamToolCallDelta) :
    (applyToolCallDelta slots d).length = max slots.length (d.index + 1) := by
  simp [applyToolCallDelta, List.length_set, growSlots_length]

theorem getD_applyToolCallDelta_self (slots : List ToolCallSlot) (d : StreamToolCallDelta) :
    (applyToolCallDelta slots d).getD d.index emptyToolCallSlot =
      applySlotDelta (slots.getD d.index emptyToolCallSlot) d := by
  have hlt : d.index < (growSlots slots (d.index + 1)).length := by
    rw [growSlots_length]; omega
  have hgrow := getD_growSlots slots (d.index + 1) d.index
  simp only [applyToolCallDelta, List.getD_eq_getElem?_getD, List.getElem?_set_self hlt,
    Option.getD_some] at hgrow ⊢
  rw [hgrow]

theorem getD_applyToolCallDelta_ne (slots : List ToolCallSlot) (d : StreamToolCallDelta)
    (j : Nat) (h : j ≠ d.index) :
    (applyToolCallDelta slots d).getD j emptyToolCallSlot =
      slots.getD j emptyToolCallSlot := by
  have hgrow := getD_growSlots slots (d.index + 1) j
  simp only [applyToolCallDelta, List.getD_eq_getElem?_getD,
    List.getElem?_set_ne (Ne.symm h)] at hgrow ⊢
  exact hgrow

theorem foldl_applySlotDelta_arguments (ds : List StreamToolCallDelta) (s : ToolCallSlot) :
    (ds.foldl applySlotDelta s).arguments = s.arguments ++ fragParts ds := by
  induction ds generalizing s with
  | nil => simp [fragParts]
  | cons d rest ih =>
    simp only [List.foldl_cons, fragParts, ih, applySlotDelta_arguments, String.append_assoc]

theorem foldl_applySlotDelta_id_none (ds : List StreamToolCallDelta) (s : ToolCallSlot)
    (h : ∀ d ∈ ds, d.deltaId = none) : (ds.foldl applySlotDelta s).id = s.id := by
  induction ds generalizing s with
  | nil => rfl
  | cons d rest ih =>
    simp only [List.foldl_cons]
    rw [ih _ (fun d2 hd2 => h d2 (List.mem_cons_of_mem _ hd2)), applySlotDelta_id,
      h d (List.mem_cons_self _ _)]
    rfl

theorem foldl_applySlotDelta_fnName_none (ds : List StreamToolCallDelta) (s : ToolCallSlot)
    (h : ∀ d ∈ ds, d.deltaName = none) : (ds.foldl applySlotDelta s).fnName = s.fnName := by
  induction ds generalizing s with
  | nil => rfl
  | cons d rest ih =>
    simp only [List.foldl_cons]
    rw [ih _ (fun d2 hd2 => h d2 (List.mem_cons_of_mem _ hd2)), applySlotDelta_fnName,
      h d (List.mem_cons_self _ _)]
    rfl

theorem foldl_applySlotDelta_id_carried (ds : List StreamToolCallDelta) (s : ToolCallSlot)
    (i : String) (hall : ∀ d ∈ ds, d.deltaId = none ∨ d.deltaId = some i)
    (hsome : ∃ d ∈ ds, d.deltaId ≠ none) : (ds.foldl applySlotDelta s).id = i := by
  induction ds generalizing s with
  | nil => simp at hsome
  | cons d rest ih =>
    simp only [List.foldl_cons]
    by_cases hrest : ∃ d2 ∈ rest, d2.deltaId ≠ none
    · exact ih _ (fun d2 hd2 => hall d2 (List.mem_cons_of_mem _ hd2)) hrest
    · push_neg at hrest
      have hnone : ∀ d2 ∈ rest, d2.deltaId = none := by
        intro d2 hd2
        by_contra hc
        exact hc (hrest d2 hd2)
      rw [foldl_applySlotDelta_id_none rest _ hnone, applySlotDelta_id]
      have hd : d.deltaId = some i := by
        rcases hsome with ⟨d3, hd3, hd3ne⟩
        rcases List.mem_cons.mp hd3 with rfl | hmem
        · rcases hall d3 (List.mem_cons_self _ _) with h0 | h0
          · exact absurd h0 hd3ne
          · exact h0
        · exact absurd (hnone d3 hmem) hd3ne
      rw [hd]
      rfl

theorem foldl_applySlotDelta_fnName_carried (ds : List StreamToolCallDelta) (s : ToolCallSlot)
    (n : String) (hall : ∀ d ∈ ds, d.deltaName = none ∨ d.deltaName = some n)
    (hsome : ∃ d ∈ ds, d.deltaName ≠ none) : (ds.foldl applySlotDelta s).fnName = n := by
  induction ds generalizing s with
  | nil => simp at hsome
  | cons d rest ih =>
    simp only [List.foldl_cons]
    by_cases hrest : ∃ d2 ∈ rest, d2.deltaName ≠ none
    · exact ih _ (fun d2 hd2 => hall d2 (List.mem_cons_of_mem _ hd2)) hrest
    · push_neg at hrest
      have hnone : ∀ d2 ∈ rest, d2.deltaName = none := by
        intro d2 hd2
        by_contra hc
        exact hc (hrest d2 hd2)
      rw [foldl_applySlotDelta_fnName_none rest _ hnone, applySlotDelta_fnName]
      have hd : d.deltaName = some n := by
        rcases hsome with ⟨d3, hd3, hd3ne⟩
        rcases List.mem_cons.mp hd3 with rfl | hmem
        · rcases hall d3 (List.mem_cons_self _ _) with h0 | h0
          · exact absurd h0 hd3ne
          · exact h0
        · exact absurd (hnone d3 hmem) hd3ne
      rw [hd]
      rfl

theorem getD_foldl_applyToolCallDelta (k : Nat) (ds : List StreamToolCallDelta)
    (slots : List ToolCallSlot) (h : ∀ d ∈ ds, d.index = k) :
    (ds.foldl applyToolCallDelta slots).getD k emptyToolCallSlot =
      ds.foldl applySlotDelta (slots.getD k emptyToolCallSlot) := by
  induction ds generalizing slots with
  | nil => rfl
  | cons d rest ih =>
    simp only [List.foldl_cons]
    rw [ih _ (fun d2 hd2 => h d2 (List.mem_cons_of_mem _ hd2))]
    have hk := h d (List.mem_cons_self _ _)
    rw [← hk, getD_applyToolCallDelta_self]

theorem resolveTarget_canon_eq (w w2 : World) (h : w2.canon = w.canon) (p : FsPath) :
    resolveTarget w2 p = resolveTarget w p := by
  simp [resolveTarget, h]

theorem is_path_allowed_canon_eq (w w2 : World) (h : w2.canon = w.canon) (p : FsPath)
    (dirs : List String) : is_path_allowed w2 p dirs = is_path_allowed w p dirs := by
  simp [is_path_allowed, resolveTarget_canon_eq w w2 h, h]

/-- C1: under a policy with autoApproveAll=false and autoApproveSafe=true, a
tool call whose safety classification is Dangerous (which includes every
unknown tool name) is never passed to the sandbox executor: its result is the
same synthesized confirmation-required failure in every world; and the execute
branch is taken exactly when autoApproveAll is true or (autoApproveSafe is
true and the tool is Safe). -/
theorem dangerous_tool_call_requires_confirmation (s : AiSettings) (tool_name : String)
    (arguments : Json) :
    (BuiltinTool.from_name tool_name = none →
      safety_of_name tool_name = ToolSafety.Dangerous) ∧
    (shouldExecuteTool s (safety_of_name tool_name) = true ↔
      (s.auto_approve_all_tools = true ∨
        (s.auto_approve_safe_tools = true ∧ safety_of_name tool_name = ToolSafety.Safe))) ∧
    (s.auto_approve_all_tools = false → s.auto_approve_safe_tools = true →
      safety_of_name tool_name = ToolSafety.Dangerous →
      ∀ (w : World) (st : FsEntries),
        runToolCall w st s tool_name arguments =
          .error ("Tool '" ++ tool_name ++
            "' requires user confirmation (not yet implemented)")) := by
  refine ⟨?_, ?_, ?_⟩
  · intro h
    simp [safety_of_name, h]
  · cases hAll : s.auto_approve_all_tools <;> cases hSafe : s.auto_approve_safe_tools <;>
      cases hS : safety_of_name tool_name <;>
        simp [shouldExecuteTool, hAll, hSafe, hS, beq_iff_eq]
  · intro hAll hSafe hS w st
    simp [runToolCall, shouldExecuteTool, hAll, hSafe, hS, beq_iff_eq]

/-- Witness for C1 at a concrete policy, tool and pair of worlds: the
Dangerous (unknown-name path included via `run_command` being known-Dangerous)
call yields the synthesized failure, identically in two different worlds. -/
theorem dangerous_tool_call_requires_confirmation_witness :
    runToolCall trivialWorld []
        { allowed_directories := ["/tmp/x"], auto_approve_safe_tools := true,
          auto_approve_all_tools := false } "run_command" (Json.obj []) =
      .error "Tool 'run_command' requires user confirmation (not yet implemented)" ∧
    runToolCall containWorld []
        { allowed_directories := ["/tmp/x"], auto_approve_safe_tools := true,
          auto_approve_all_tools := false } "run_command" (Json.obj []) =
      .error "Tool 'run_command' requires user confirmation (not yet implemented)" := by
  constructor
  · exact (dangerous_tool_call_requires_confirmation _ "run_command" (Json.obj [])).2.2
      rfl rfl rfl trivialWorld []
  · exact (dangerous_tool_call_requires_confirmation _ "run_command" (Json.obj [])).2.2
      rfl rfl rfl containWorld []

/-- C9: the result of `execute_tool` for `run_command` is the same for every
two values of the allowed-directories list (shell execution is not gated by
path containment); its safety classification is Dangerous. -/
theorem run_command_independent_of_allowed_directories :
    (∀ (w : World) (st : FsEntries) (args : Json) (dirs1 dirs2 : List String),
      execute_tool w st "run_command" args dirs1 = execute_tool w st "run_command" args dirs2) ∧
    safety_of_name "run_command" = ToolSafety.Dangerous ∧
    BuiltinTool.RunCommand.safety = ToolSafety.Dangerous := by
  refine ⟨?_, rfl, rfl⟩
  intro w st args dirs1 dirs2
  rfl

/-- C8: when the reported metadata size exceeds 5 MiB, `execute_read_file`
returns the too-large error in every world agreeing on canonicalization and
metadata — in particular for every possible read behaviour, so no content is
read; when the size is within the cap, the size check passes and the result
is exactly the outcome of reading the file. -/
theorem read_file_size_cap (w : World) (args : Json) (allowed : List String)
    (path_str : String) (size : Nat)
    (hpath : args.getStr "path" = some path_str)
    (hallow : is_path_allowed w (parsePath path_str) allowed = true)
    (hsize : w.fsize (parsePath path_str) = .ok size) :
    (MAX_FILE_READ_SIZE < size →
      ∀ w2 : World, w2.canon = w.canon → w2.fsize = w.fsize →
        execute_read_file w2 args allowed =
          .error ("File is too large (" ++ toString size ++ " bytes). Maximum size is "
                  ++ toString MAX_FILE_READ_SIZE ++ " bytes.")) ∧
    (size ≤ MAX_FILE_READ_SIZE →
      execute_read_file w args allowed =
        match w.readToString (parsePath path_str) with
        | .ok content => .ok content
        | .error e => .error ("Failed to read file: " ++ e)) := by
  constructor
  · intro hlt w2 hc hf
    have hallow2 : is_path_allowed w2 (parsePath path_str) allowed = true := by
      rw [is_path_allowed_canon_eq w w2 hc, hallow]
    have hsize2 : w2.fsize (parsePath path_str) = .ok size := by rw [hf, hsize]
    simp [execute_read_file, hpath, hallow2, hsize2, hlt]
  · intro hle
    have hnlt : ¬ MAX_FILE_READ_SIZE < size := Nat.not_lt.mpr hle
    simp [execute_read_file, hpath, hallow, hsize, hnlt]

/-- Witness for C8: a 5 MiB + 1 byte file errors with the too-large message
(evaluated in a world whose read behaviour is irrelevant), and a 5-byte file
is read through to its content. -/
theorem read_file_size_cap_witness :
    execute_read_file bigFileWorld
        (Json.obj [("path", Json.str "/tmp/a.txt")]) ["/tmp"] =
      .error ("File is too large (" ++ toString 5242881 ++ " bytes). Maximum size is "
              ++ toString MAX_FILE_READ_SIZE ++ " bytes.") ∧
    execute_read_file containWorld
        (Json.obj [("path", Json.str "/tmp/x/a.txt")]) ["/tmp/x"] = .ok "hello" := by
  constructor
  · exact (read_file_size_cap bigFileWorld (Json.obj [("path", Json.str "/tmp/a.txt")])
      ["/tmp"] "/tmp/a.txt" 5242881 rfl (by decide) rfl).1 (by decide) bigFileWorld rfl rfl
  · have h := (read_file_size_cap containWorld (Json.obj [("path", Json.str "/tmp/x/a.txt")])
      ["/tmp/x"] "/tmp/x/a.txt" 5 rfl (by decide) rfl).2 (by decide)
    simpa using h

/-- C10: for an allowed path that is a directory, `execute_delete_file`
invokes the recursive removal: when it succeeds, the whole tree disappears —
no entry whose path has the target as a prefix survives, and every entry
outside the tree survives — and when the filesystem operation fails the io
error is propagated as the `Failed to delete directory` error; for an
allowed non-directory path only the single-file removal is invoked, deleting
exactly that path on success, with the `Failed to delete file` error
propagated on failure. -/
theorem delete_file_removes_directory_tree (w : World) (st : FsEntries) (args : Json)
    (allowed : List String) (path_str : String)
    (hpath : args.getStr "path" = some path_str)
    (hallow : is_path_allowed w (parsePath path_str) allowed = true) :
    (entryIsDir st (parsePath path_str) = true →
      (w.removeDirAllErr (parsePath path_str) = none →
        (execute_delete_file w st args allowed).1 =
          .ok ("Successfully deleted " ++ path_str) ∧
        ∀ e : FsPath × Bool,
          e ∈ (execute_delete_file w st args allowed).2 ↔
            (e ∈ st ∧ pathStartsWith (parsePath path_str) e.1 = false)) ∧
      (∀ err, w.removeDirAllErr (parsePath path_str) = some err →
        (execute_delete_file w st args allowed).1 =
          .error ("Failed to delete directory: " ++ err))) ∧
    (entryIsDir st (parsePath path_str) = false →
      (w.removeFileErr (parsePath path_str) = none →
        (execute_delete_file w st args allowed).1 =
          .ok ("Successfully deleted " ++ path_str) ∧
        ∀ e : FsPath × Bool,
          e ∈ (execute_delete_file w st args allowed).2 ↔
            (e ∈ st ∧ e.1 ≠ parsePath path_str)) ∧
      (∀ err, w.removeFileErr (parsePath path_str) = some err →
        (execute_delete_file w st args allowed).1 =
          .error ("Failed to delete file: " ++ err))) := by
  constructor
  · intro hdir
    constructor
    · intro hok
      constructor
      · simp [execute_delete_file, hpath, hallow, hdir, hok]
      · intro e
        simp only [execute_delete_file, hpath, hallow, Bool.not_true, Bool.false_eq_true,
          if_false, hdir, if_true, hok, removeDirAllFs, List.mem_filter]
        simp
    · intro err herr
      simp [execute_delete_file, hpath, hallow, hdir, herr]
  · intro hdir
    constructor
    · intro hok
      constructor
      · simp [execute_delete_file, hpath, hallow, hdir, hok]
      · intro e
        simp only [execute_delete_file, hpath, hallow, Bool.not_true, Bool.false_eq_true,
          if_false, hdir, hok, removeFileFs, List.mem_filter]
        simp
    · intro err herr
      simp [execute_delete_file, hpath, hallow, hdir, herr]

/-- A platform like `trivialWorld` except that every recursive directory
removal fails with "Permission denied". -/
def denyDeleteWorld : World :=
  { trivialWorld with removeDirAllErr := fun _ => some "Permission denied" }

/-- Witness for C10: when removal succeeds, deleting the directory `/tmp/x`
removes it together with its nested file and subdirectory but leaves
`/tmp/y` alone, and deleting the plain file `/tmp/y` removes only that
entry; when the recursive removal fails, the io error is surfaced as the
`Failed to delete directory` error. -/
theorem delete_file_removes_directory_tree_witness :
    ((execute_delete_file trivialWorld
        [(["tmp", "x"], true), (["tmp", "x", "a.txt"], false), (["tmp", "x", "d"], true),
         (["tmp", "x", "d", "b.txt"], false), (["tmp", "y"], false)]
        (Json.obj [("path", Json.str "/tmp/x")]) ["/tmp"]).2 = [(["tmp", "y"], false)]) ∧
    ((["tmp", "x", "d", "b.txt"], false) ∈
        ([(["tmp", "x"], true), (["tmp", "x", "a.txt"], false), (["tmp", "x", "d"], true),
          (["tmp", "x", "d", "b.txt"], false), (["tmp", "y"], false)] : FsEntries) ∧
      pathStartsWith (parsePath "/tmp/x") ["tmp", "x", "d", "b.txt"] = true) ∧
    ((execute_delete_file trivialWorld
        [(["tmp", "x"], true), (["tmp", "y"], false)]
        (Json.obj [("path", Json.str "/tmp/y")]) ["/tmp"]).2 = [(["tmp", "x"], true)]) ∧
    ((execute_delete_file denyDeleteWorld [(["tmp", "x"], true)]
        (Json.obj [("path", Json.str "/tmp/x")]) ["/tmp"]).1 =
      .error ("Failed to delete directory: " ++ "Permission denied")) := by
  refine ⟨?_, by decide, ?_, ?_⟩
  · have h := ((delete_file_removes_directory_tree trivialWorld
      [(["tmp", "x"], true), (["tmp", "x", "a.txt"], false), (["tmp", "x", "d"], true),
       (["tmp", "x", "d", "b.txt"], false), (["tmp", "y"], false)]
      (Json.obj [("path", Json.str "/tmp/x")]) ["/tmp"] "/tmp/x" rfl (by decide)).1
      (by decide)).1 rfl
    decide
  · have h := ((delete_file_removes_directory_tree trivialWorld
      [(["tmp", "x"], true), (["tmp", "y"], false)]
      (Json.obj [("path", Json.str "/tmp/y")]) ["/tmp"] "/tmp/y" rfl (by decide)).2
      (by decide)).1 rfl
    decide
  · exact ((delete_file_removes_directory_tree denyDeleteWorld [(["tmp", "x"], true)]
      (Json.obj [("path", Json.str "/tmp/x")]) ["/tmp"] "/tmp/x" rfl (by decide)).1
      (by decide)).2 "Permission denied" rfl

/-- C5: applying a delta at index i is total for every arrival order — the
backing list is grown to length max(len, i+1) first, every back-filled slot
is the empty placeholder, the slot at i is the old (or placeholder) slot
updated by the delta — and at resolution any slot whose accumulated argument
string fails to parse (the empty placeholder string included) yields the
empty JSON object instead of an error. -/
theorem tool_call_delta_out_of_order_safety (slots : List ToolCallSlot)
    (d : StreamToolCallDelta) :
    (applyToolCallDelta slots d).length = max slots.length (d.index + 1) ∧
    d.index < (applyToolCallDelta slots d).length ∧
    (∀ j, slots.length ≤ j → j ≠ d.index →
      (applyToolCallDelta slots d).getD j emptyToolCallSlot = emptyToolCallSlot) ∧
    (applyToolCallDelta slots d).getD d.index emptyToolCallSlot =
      applySlotDelta (slots.getD d.index emptyToolCallSlot) d ∧
    (∀ (parse : String → Option Json) (slot : ToolCallSlot),
      parse slot.arguments = none →
      (resolveToolCall parse slot).arguments = Json.obj []) := by
  refine ⟨applyToolCallDelta_length slots d, ?_, ?_, getD_applyToolCallDelta_self slots d, ?_⟩
  · rw [applyToolCallDelta_length]
    omega
  · intro j hlen hne
    rw [getD_applyToolCallDelta_ne slots d j hne]
    exact List.getD_eq_default _ _ hlen
  · intro parse slot hparse
    simp [resolveToolCall, hparse]

/-- Witness for C5: a delta arriving at index 2 on an empty accumulator grows
the list to three slots, back-fills indices 0 and 1 with placeholders, and the
placeholder's empty argument string resolves to the empty object under a parse
that rejects the empty string. -/
theorem tool_call_delta_out_of_order_safety_witness :
    (applyToolCallDelta [] (StreamToolCallDelta.mk 2 (some "c2") (some "read_file")
      (some "ab"))).length = 3 ∧
    (applyToolCallDelta [] (StreamToolCallDelta.mk 2 (some "c2") (some "read_file")
      (some "ab"))).getD 0 emptyToolCallSlot = emptyToolCallSlot ∧
    (resolveToolCall (fun _ => none) emptyToolCallSlot).arguments = Json.obj [] := by
  have h := tool_call_delta_out_of_order_safety []
    (StreamToolCallDelta.mk 2 (some "c2") (some "read_file") (some "ab"))
  exact ⟨h.1, h.2.2.1 0 (by decide) (by decide), h.2.2.2.2 (fun _ => none) emptyToolCallSlot rfl⟩

theorem askLoopFrom_requests_le (p : Nat → ProviderResp) :
    ∀ (n t req se : Nat), max_tool_rounds + 1 - t ≤ n →
      (askLoopFrom p t req se).requests ≤ req + (max_tool_rounds - t) := by
  intro n
  induction n with
  | zero =>
    intro t req se h
    rw [askLoopFrom]
    have hgt : max_tool_rounds < t + 1 := by omega
    simp [hgt]
  | succ n ih =>
    intro t req se h
    rw [askLoopFrom]
    by_cases hgt : max_tool_rounds < t + 1
    · simp [hgt]
    · simp only [hgt, if_false]
      cases hp : p (t + 1) with
      | fail e => simp; omega
      | round ft tcs =>
        by_cases hemp : tcs.isEmpty
        · simp [hemp]; omega
        · simp only [hemp, Bool.false_eq_true, if_false]
          have hrec := ih (t + 1) (req + 1) se (by omega)
          omega

theorem askLoopFrom_always_tools (p : Nat → ProviderResp)
    (hp : ∀ r, ∃ ft tcs, p r = .round ft tcs ∧ tcs ≠ []) :
    ∀ (n t req se : Nat), max_tool_rounds + 1 - t ≤ n → t ≤ max_tool_rounds →
      askLoopFrom p t req se =
        { requests := req + (max_tool_rounds - t), streamEnds := se, result := .ok () } := by
  intro n
  induction n with
  | zero =>
    intro t req se h hle
    simp [max_tool_rounds] at h hle
    omega
  | succ n ih =>
    intro t req se h hle
    rw [askLoopFrom]
    by_cases hgt : max_tool_rounds < t + 1
    · have ht : t = max_tool_rounds := by omega
      simp [hgt, ht]
    · simp only [hgt, if_false]
      rcases hp (t + 1) with ⟨ft, tcs, hpt, hne⟩
      rw [hpt]
      have hemp : tcs.isEmpty = false := by
        cases tcs with
        | nil => exact absurd rfl hne
        | cons a l => rfl
      simp only [hemp, Bool.false_eq_true, if_false]
      rw [ih (t + 1) (req + 1) se (by omega) (by omega)]
      have harith : req + 1 + (max_tool_rounds - (t + 1)) = req + (max_tool_rounds - t) := by
        omega
      rw [harith]

/-- C3: for every provider behaviour the round loop sends at most 10
requests, and a provider that requests a tool call on every round gets
exactly 10 requests after which the loop stops with success, emitting no
stream-end event. -/
theorem round_budget_caps_requests (provider : Nat → ProviderResp) :
    (ai_ask_stream_loop provider).requests ≤ 10 ∧
    ((∀ r, ∃ ft tcs, provider r = .round ft tcs ∧ tcs ≠ []) →
      ai_ask_stream_loop provider =
        { requests := 10, streamEnds := 0, result := .ok () }) := by
  constructor
  · have h := askLoopFrom_requests_le provider (max_tool_rounds + 1) 0 0 0 (by omega)
    simpa [ai_ask_stream_loop, max_tool_rounds] using h
  · intro hp
    have h := askLoopFrom_always_tools provider hp (max_tool_rounds + 1) 0 0 0
      (by omega) (by omega)
    simpa [ai_ask_stream_loop, max_tool_rounds] using h

/-- Witness for C3: the provider that requests one tool call every round is
stopped after exactly 10 requests, with a success result and no stream-end. -/
theorem round_budget_caps_requests_witness :
    ai_ask_stream_loop (fun _ => ProviderResp.round "" [emptyToolCallSlot]) =
      { requests := 10, streamEnds := 0, result := .ok () } :=
  (round_budget_caps_requests _).2
    (fun _ => ⟨"", [emptyToolCallSlot], rfl, List.cons_ne_nil _ _⟩)

/-- C2: an empty allow-list makes the containment check false for every path
and every path-gated tool returns an error for every argument value; the
check succeeds exactly when the target resolves (canonicalizing, with the
parent fallback) to a path that component-prefix-extends some canonicalized
allow-list entry; and a denied read yields the ordinary denial error string. -/
theorem sandbox_path_gating (w : World) :
    (∀ p : FsPath, is_path_allowed w p [] = false) ∧
    (∀ (st : FsEntries) (args : Json) (name : String),
      (name = "read_file" ∨ name = "write_file" ∨ name = "list_directory" ∨
        name = "search_files" ∨ name = "delete_file") →
      ∃ e, execute_tool w st name args [] = .error e) ∧
    (∀ (p : FsPath) (dirs : List String),
      is_path_allowed w p dirs = true ↔
        (dirs ≠ [] ∧ ∃ cp, resolveTarget w p = some cp ∧
          ∃ a ∈ dirs, ∃ ca, w.canon (parsePath a) = some ca ∧
            pathStartsWith ca cp = true)) ∧
    (∀ (args : Json) (dirs : List String) (path_str : String),
      args.getStr "path" = some path_str →
      is_path_allowed w (parsePath path_str) dirs = false →
      execute_read_file w args dirs =
        .error ("Path '" ++ path_str ++ "' is not in allowed directories")) := by
  have hempty : ∀ p : FsPath, is_path_allowed w p [] = false := by
    intro p
    simp [is_path_allowed]
  refine ⟨hempty, ?_, ?_, ?_⟩
  · intro st args name hname
    rcases hname with rfl | rfl | rfl | rfl | rfl
    · cases hp : args.getStr "path" with
      | none =>
        exact ⟨"Missing 'path' argument",
          by simp [execute_tool, BuiltinTool.from_name, execute_read_file, hp]⟩
      | some s =>
        exact ⟨"Path '" ++ s ++ "' is not in allowed directories", by
          simp [execute_tool, BuiltinTool.from_name, execute_read_file, hp, hempty]⟩
    · cases hp : args.getStr "path" with
      | none =>
        exact ⟨"Missing 'path' argument",
          by simp [execute_tool, BuiltinTool.from_name, execute_write_file, hp]⟩
      | some s =>
        cases hc : args.getStr "content" with
        | none =>
          exact ⟨"Missing 'content' argument", by
            simp [execute_tool, BuiltinTool.from_name, execute_write_file, hp, hc]⟩
        | some c =>
          exact ⟨"Path '" ++ s ++ "' is not in allowed directories", by
            simp [execute_tool, BuiltinTool.from_name, execute_write_file, hp, hc, hempty]⟩
    · cases hp : args.getStr "path" with
      | none =>
        exact ⟨"Missing 'path' argument",
          by simp [execute_tool, BuiltinTool.from_name, execute_list_directory, hp]⟩
      | some s =>
        exact ⟨"Path '" ++ s ++ "' is not in allowed directories", by
          simp [execute_tool, BuiltinTool.from_name, execute_list_directory, hp, hempty]⟩
    · cases hp : args.getStr "directory" with
      | none =>
        exact ⟨"Missing 'directory' argument",
          by simp [execute_tool, BuiltinTool.from_name, execute_search_files, hp]⟩
      | some s =>
        cases hpat : args.getStr "pattern" with
        | none =>
          exact ⟨"Missing 'pattern' argument", by
            simp [execute_tool, BuiltinTool.from_name, execute_search_files, hp, hpat]⟩
        | some pat =>
          exact ⟨"Path '" ++ s ++ "' is not in allowed directories", by
            simp [execute_tool, BuiltinTool.from_name, execute_search_files, hp, hpat, hempty]⟩
    · cases hp : args.getStr "path" with
      | none =>
        exact ⟨"Missing 'path' argument",
          by simp [execute_tool, BuiltinTool.from_name, execute_delete_file, hp]⟩
      | some s =>
        exact ⟨"Path '" ++ s ++ "' is not in allowed directories", by
          simp [execute_tool, BuiltinTool.from_name, execute_delete_file, hp, hempty]⟩
  · intro p dirs
    cases hdirs : dirs.isEmpty with
    | true =>
      have : dirs = [] := List.isEmpty_iff.mp hdirs
      subst this
      simp [is_path_allowed]
    | false =>
      have hne : dirs ≠ [] := by
        intro hcon
        subst hcon
        simp at hdirs
      cases hres : resolveTarget w p with
      | none => simp [is_path_allowed, hdirs, hres, hne]
      | some cp =>
        simp only [is_path_allowed, hdirs, Bool.false_eq_true, if_false, hres,
          List.any_eq_true, hne, ne_eq, not_false_iff, true_and, Option.some.injEq]
        constructor
        · rintro ⟨a, ha, hmatch⟩
          refine ⟨cp, rfl, a, ha, ?_⟩
          cases hca : w.canon (parsePath a) with
          | none => rw [hca] at hmatch; exact absurd hmatch (by simp)
          | some ca => rw [hca] at hmatch; exact ⟨ca, rfl, hmatch⟩
        · rintro ⟨cp2, hcp2, a, ha, ca, hca, hpre⟩
          cases hcp2
          refine ⟨a, ha, ?_⟩
          rw [hca]
          exact hpre
  · intro args dirs path_str hp hdenied
    simp [execute_read_file, hp, hdenied]

/-- Witness for C2: with an empty allow-list every tool read denies; with
allow-list `/tmp/x` the path `/etc/passwd` is denied with the ordinary error
string while `/tmp/x/a.txt` (present in the world) passes the check and reads
through to its content. -/
theorem sandbox_path_gating_witness :
    is_path_allowed containWorld (parsePath "/etc/passwd") [] = false ∧
    execute_read_file containWorld (Json.obj [("path", Json.str "/etc/passwd")]) ["/tmp/x"] =
      .error ("Path '" ++ "/etc/passwd" ++ "' is not in allowed directories") ∧
    is_path_allowed containWorld (parsePath "/tmp/x/a.txt") ["/tmp/x"] = true ∧
    execute_read_file containWorld (Json.obj [("path", Json.str "/tmp/x/a.txt")]) ["/tmp/x"] =
      .ok "hello" := by
  refine ⟨(sandbox_path_gating containWorld).1 _, ?_, ?_, ?_⟩
  · exact (sandbox_path_gating containWorld).2.2.2
      (Json.obj [("path", Json.str "/etc/passwd")]) ["/tmp/x"] "/etc/passwd" rfl (by decide)
  · exact ((sandbox_path_gating containWorld).2.2.1 (parsePath "/tmp/x/a.txt") ["/tmp/x"]).mpr
      ⟨by decide, ["tmp", "x", "a.txt"], by decide,
        "/tmp/x", by decide, ["tmp", "x"], by decide, by decide⟩
  · rfl

/-- C4 counterexample: a slot whose id was set to the non-empty "call_1" is
blanked back to "" by a later delta that carries an empty id — the
accumulator overwrites on presence of the field, not on non-emptiness. -/
theorem tool_call_id_blanked_counterexample :
    ((applyToolCallDelta (applyToolCallDelta []
        (StreamToolCallDelta.mk 0 (some "call_1") (some "read_file") none))
        (StreamToolCallDelta.mk 0 (some "") none none)).getD 0 emptyToolCallSlot).id = "" ∧
    ((applyToolCallDelta []
        (StreamToolCallDelta.mk 0 (some "call_1") (some "read_file") none)).getD 0
        emptyToolCallSlot).id = "call_1" := by
  decide

/-- C4 (amended): a present id or function name overwrites the stored value —
even when the arriving value is empty, so a set field can be blanked — while
arguments are always extended by concatenation; consequently any split of a
tool call into ordered chunks at one index in which every chunk carrying the
id (resp. name) carries it whole resolves identically to the single-chunk
application. -/
theorem tool_call_accumulation_semantics (slot : ToolCallSlot) (d : StreamToolCallDelta) :
    ((applySlotDelta slot d).id = d.deltaId.getD slot.id ∧
     (applySlotDelta slot d).fnName = d.deltaName.getD slot.fnName ∧
     (applySlotDelta slot d).arguments = slot.arguments ++ d.deltaArgs.getD "") ∧
    (∀ (k : Nat) (ds : List StreamToolCallDelta) (i n a : String)
      (parse : String → Option Json),
      (∀ d2 ∈ ds, d2.index = k) →
      (∀ d2 ∈ ds, d2.deltaId = none ∨ d2.deltaId = some i) →
      (∃ d2 ∈ ds, d2.deltaId ≠ none) →
      (∀ d2 ∈ ds, d2.deltaName = none ∨ d2.deltaName = some n) →
      (∃ d2 ∈ ds, d2.deltaName ≠ none) →
      fragParts ds = a →
      resolveToolCall parse ((ds.foldl applyToolCallDelta []).getD k emptyToolCallSlot) =
        resolveToolCall parse ((applyToolCallDelta []
          (StreamToolCallDelta.mk k (some i) (some n) (some a))).getD k
          emptyToolCallSlot)) := by
  refine ⟨⟨applySlotDelta_id slot d, applySlotDelta_fnName slot d,
    applySlotDelta_arguments slot d⟩, ?_⟩
  intro k ds i n a parse hidx hidall hidsome hnall hnsome hfrag
  rw [getD_foldl_applyToolCallDelta k ds [] hidx, getD_applyToolCallDelta_self]
  have hbase : (([] : List ToolCallSlot)).getD k emptyToolCallSlot = emptyToolCallSlot := by
    cases k <;> rfl
  simp only [hbase]
  simp [resolveToolCall, foldl_applySlotDelta_id_carried ds _ i hidall hidsome,
    foldl_applySlotDelta_fnName_carried ds _ n hnall hnsome,
    foldl_applySlotDelta_arguments, hfrag, applySlotDelta_id, applySlotDelta_fnName,
    applySlotDelta_arguments, emptyToolCallSlot]

/-- Witness for the amended C4: the call `read_file` with id "c1" and
arguments "abcd", split into a chunk carrying id/name/"ab" followed by a
chunk carrying only "cd", resolves exactly as the single-chunk application. -/
theorem tool_call_accumulation_semantics_witness :
    resolveToolCall (fun _ => none)
        (([StreamToolCallDelta.mk 0 (some "c1") (some "read_file") (some "ab"),
           StreamToolCallDelta.mk 0 none none (some "cd")].foldl
          applyToolCallDelta []).getD 0 emptyToolCallSlot) =
      resolveToolCall (fun _ => none)
        ((applyToolCallDelta []
          (StreamToolCallDelta.mk 0 (some "c1") (some "read_file") (some "abcd"))).getD 0
          emptyToolCallSlot) := by
  exact (tool_call_accumulation_semantics emptyToolCallSlot
      (StreamToolCallDelta.mk 0 none none none)).2 0
    [StreamToolCallDelta.mk 0 (some "c1") (some "read_file") (some "ab"),
     StreamToolCallDelta.mk 0 none none (some "cd")]
    "c1" "read_file" "abcd" (fun _ => none)
    (by decide) (by decide) (by decide) (by decide) (by decide) (by decide)

/-- C6 counterexample: one read whose first frame carries
`finish_reason: "stop"` (making the round terminal) and whose second frame
carries the text delta "x": the decoder still emits the "x" chunk event and
appends it to the accumulated text, so frame content after the terminal
frame in the same read is acted upon. -/
theorem terminal_frame_same_chunk_counterexample :
    (processFrame initRoundState
        (Frame.mk (some "stop") (some (StreamDelta.mk none none)))).1.streamDone = true ∧
    (processChunks demoParse initRoundState
        ["data: " ++ stopFramePayload ++ "\n" ++ "data: " ++ contentFramePayload]).1.fullText
      = "x" ∧
    (processChunks demoParse initRoundState
        ["data: " ++ stopFramePayload ++ "\n" ++ "data: " ++ contentFramePayload]).2
      = ["x"] := by
  decide

/-- C6 (amended): a `[DONE]` payload ends the round immediately — every
remaining buffered line of the same read is ignored; a finish_reason of
"stop" or "tool_calls" marks the round terminal, and a terminal state stops
all processing from the next read on (the remaining frames of the current
read are still acted upon). -/
theorem frame_decoder_terminal_detection (parse : FrameParse) (st : RoundState) :
    (∀ line rest, strStartsWith line "data: " = true →
      trimChars (line.drop 6) = "[DONE]" →
      processChunkLines parse st (line :: rest) = ({ st with streamDone := true }, [])) ∧
    (∀ chunks, st.streamDone = true → processChunks parse st chunks = (st, [])) ∧
    (∀ fr, (fr.finishReason = some "stop" ∨ fr.finishReason = some "tool_calls") →
      (processFrame st fr).1.streamDone = true) := by
  refine ⟨?_, ?_, ?_⟩
  · intro line rest h1 h2
    simp [processChunkLines, h1, h2]
  · intro chunks hdone
    cases chunks with
    | nil => rfl
    | cons c rest => simp [processChunks, hdone]
  · intro fr hfr
    have hcond : (fr.finishReason = some "stop" ∨ fr.finishReason = some "tool_calls") := hfr
    cases hd : fr.delta with
    | none => simp [processFrame, hd, hcond]
    | some d =>
      cases hc : d.content with
      | none =>
        cases htc : d.toolCalls with
        | none => simp [processFrame, hd, hc, htc, hcond]
        | some tcs => simp [processFrame, hd, hc, htc, hcond]
      | some c =>
        cases htc : d.toolCalls with
        | none => simp [processFrame, hd, hc, htc, hcond]
        | some tcs => simp [processFrame, hd, hc, htc, hcond]

/-- Witness for the amended C6: a `[DONE]` line makes the decoder drop the
rest of the read; a terminal state skips later reads entirely; the stop
frame sets the terminal flag. -/
theorem frame_decoder_terminal_detection_witness :
    processChunkLines demoParse initRoundState
        ["data: [DONE]", "data: " ++ contentFramePayload] =
      ({ initRoundState with streamDone := true }, []) ∧
    processChunks demoParse { initRoundState with streamDone := true }
        ["data: " ++ contentFramePayload] =
      ({ initRoundState with streamDone := true }, []) ∧
    (processFrame initRoundState
        (Frame.mk (some "tool_calls") (some (StreamDelta.mk (some "x") none)))).1.streamDone
      = true := by
  refine ⟨?_, ?_, ?_⟩
  · exact (frame_decoder_terminal_detection demoParse initRoundState).1
      "data: [DONE]" ["data: " ++ contentFramePayload] (by decide) (by decide)
  · exact (frame_decoder_terminal_detection demoParse
      { initRoundState with streamDone := true }).2.1 ["data: " ++ contentFramePayload] rfl
  · exact (frame_decoder_terminal_detection demoParse initRoundState).2.2
      (Frame.mk (some "tool_calls") (some (StreamDelta.mk (some "x") none)))
      (Or.inr rfl)

theorem searchEntriesLoop_all_files (m : String → Bool) (names2 : List String)
    (depth : Nat) (acc : List String) (hm : ∀ x ∈ names2, m x = true) :
    searchEntriesLoop m (names2.map FsTree.file) depth acc = acc ++ names2 := by
  induction names2 generalizing acc with
  | nil => simp [searchEntriesLoop]
  | cons x xs ih =>
    simp only [List.map_cons]
    rw [searchEntriesLoop, if_pos (hm x (List.mem_cons_self _ _)),
      ih _ (fun y hy => hm y (List.mem_cons_of_mem _ hy))]
    simp

/-- C7 counterexample: a directory of 101 entries all matching the pattern
yields 101 results — the 100-match cap is only checked before a directory
scan begins, so a scan in progress pushes past it. -/
theorem search_result_cap_exceeded_counterexample :
    100 < (search_recursive (fun _ => true)
      ((List.replicate 101 "a").map FsTree.file) 5 []).length := by
  rw [search_recursive]
  simp only [List.length_nil, show ¬(5 = 0 ∨ 100 ≤ 0) by omega, if_false]
  rw [searchEntriesLoop_all_files (fun _ => true) (List.replicate 101 "a") 5 []
    (fun x _ => rfl)]
  simp

theorem search_recursive_walk (m : String → Bool) :
    ∀ (N : Nat) (es : List FsTree), sizeOf es ≤ N →
      (∀ depth acc, 1 ≤ depth →
        ∃ l, searchEntriesLoop m es depth acc = acc ++ l ∧
          ∀ x ∈ l, x ∈ namesToDepth depth es) ∧
      (∀ depth acc,
        ∃ l, search_recursive m es depth acc = acc ++ l ∧
          ∀ x ∈ l, x ∈ namesToDepth depth es) := by
  intro N
  induction N with
  | zero =>
    intro es h
    exfalso
    cases es with
    | nil => simp at h
    | cons a l => simp at h
  | succ N ih =>
    intro es hes
    have hloop : ∀ depth acc, 1 ≤ depth →
        ∃ l, searchEntriesLoop m es depth acc = acc ++ l ∧
          ∀ x ∈ l, x ∈ namesToDepth depth es := by
      intro depth acc hdep
      obtain ⟨d0, rfl⟩ : ∃ d0, depth = d0 + 1 := ⟨depth - 1, by omega⟩
      cases es with
      | nil => exact ⟨[], by simp [searchEntriesLoop], by simp⟩
      | cons e rest =>
        cases e with
        | file nm =>
          have hrest : sizeOf rest ≤ N := by simp at hes; omega
          by_cases hm : m nm = true
          · obtain ⟨l3, hl3, hmem3⟩ := (ih rest hrest).1 (d0 + 1) (acc ++ [nm]) (by omega)
            refine ⟨nm :: l3, ?_, ?_⟩
            · rw [searchEntriesLoop, if_pos hm, hl3]
              simp
            · intro x hx
              rcases List.mem_cons.mp hx with rfl | hx3
              · simp [namesToDepth, FsTree.name]
              · simp only [namesToDepth, FsTree.name]
                exact List.mem_cons_of_mem _ (List.mem_append_right _ (hmem3 x hx3))
          · obtain ⟨l3, hl3, hmem3⟩ := (ih rest hrest).1 (d0 + 1) acc (by omega)
            refine ⟨l3, ?_, ?_⟩
            · rw [searchEntriesLoop, if_neg hm, hl3]
            · intro x hx3
              simp only [namesToDepth, FsTree.name]
              exact List.mem_cons_of_mem _ (List.mem_append_right _ (hmem3 x hx3))
        | dir nm sub =>
          have hrest : sizeOf rest ≤ N := by simp at hes; omega
          have hsub : sizeOf sub ≤ N := by simp at hes; omega
          have hd1 : d0 + 1 - 1 = d0 := by omega
          by_cases hm : m nm = true
          · obtain ⟨l2, hl2, hmem2⟩ := (ih sub hsub).2 d0 (acc ++ [nm])
            obtain ⟨l3, hl3, hmem3⟩ := (ih rest hrest).1 (d0 + 1) ((acc ++ [nm]) ++ l2)
              (by omega)
            refine ⟨(nm :: l2) ++ l3, ?_, ?_⟩
            · rw [searchEntriesLoop, if_pos hm, hd1, hl2, hl3]
              simp
            · intro x hx
              rcases List.mem_append.mp hx with hx12 | hx3
              · rcases List.mem_cons.mp hx12 with rfl | hx2
                · simp [namesToDepth, FsTree.name]
                · simp only [namesToDepth, FsTree.name]
                  exact List.mem_cons_of_mem _ (List.mem_append_left _ (hmem2 x hx2))
              · simp only [namesToDepth, FsTree.name]
                exact List.mem_cons_of_mem _ (List.mem_append_right _ (hmem3 x hx3))
          · obtain ⟨l2, hl2, hmem2⟩ := (ih sub hsub).2 d0 acc
            obtain ⟨l3, hl3, hmem3⟩ := (ih rest hrest).1 (d0 + 1) (acc ++ l2) (by omega)
            refine ⟨l2 ++ l3, ?_, ?_⟩
            · rw [searchEntriesLoop, if_neg hm, hd1, hl2, hl3]
              simp
            · intro x hx
              rcases List.mem_append.mp hx with hx2 | hx3
              · simp only [namesToDepth, FsTree.name]
                exact List.mem_cons_of_mem _ (List.mem_append_left _ (hmem2 x hx2))
              · simp only [namesToDepth, FsTree.name]
                exact List.mem_cons_of_mem _ (List.mem_append_right _ (hmem3 x hx3))
    refine ⟨hloop, ?_⟩
    intro depth acc
    by_cases hguard : depth = 0 ∨ 100 ≤ acc.length
    · refine ⟨[], ?_, by simp⟩
      rw [search_recursive, if_pos hguard]
      simp
    · have hdep : 1 ≤ depth := by
        push_neg at hguard
        omega
      obtain ⟨l, hl, hmem⟩ := hloop depth acc hdep
      refine ⟨l, ?_, hmem⟩
      rw [search_recursive, if_neg hguard]
      exact hl

/-- C7 (amended): the recursive walk is depth- and cap-bounded at directory
granularity: a call entered with 100 or more accumulated matches (or zero
remaining depth) scans nothing and adds nothing, every match produced from
depth d is the name of an entry at most d levels below the starting
directory (the top call uses d = 5), and the glob is translated by rewriting
`*` to `.*` and `?` to `.` and anchoring at both ends — but the final match
count may exceed 100, since the cap is only consulted when a directory scan
begins (see the counterexample). -/
theorem search_files_bounded_walk (m : String → Bool) (entries : List FsTree)
    (depth : Nat) (acc : List String) :
    (100 ≤ acc.length → search_recursive m entries depth acc = acc) ∧
    (search_recursive m entries 0 acc = acc) ∧
    (∃ l, search_recursive m entries depth acc = acc ++ l ∧
      ∀ x ∈ l, x ∈ namesToDepth depth entries) ∧
    anchoredGlobRegex "*.rs" = "^.*.rs$" ∧
    anchoredGlobRegex "fo?" = "^fo.$" := by
  refine ⟨?_, ?_, ?_, by decide, by decide⟩
  · intro hacc
    rw [search_recursive, if_pos (Or.inr hacc)]
  · rw [search_recursive, if_pos (Or.inl rfl)]
  · exact (search_recursive_walk m (sizeOf entries) entries le_rfl).2 depth acc

/-- Witness for the amended C7: a walk entered with 100 matches already
accumulated adds nothing, and a walk with zero depth adds nothing. -/
theorem search_files_bounded_walk_witness :
    search_recursive (fun _ => true) [FsTree.file "a"] 5 (List.replicate 100 "z") =
      List.replicate 100 "z" ∧
    search_recursive (fun _ => true) [FsTree.file "a"] 0 [] = [] := by
  constructor
  · exact (search_files_bounded_walk (fun _ => true) [FsTree.file "a"] 5
      (List.replicate 100 "z")).1 (by simp)
  · exact (search_files_bounded_walk (fun _ => true) [FsTree.file "a"] 0 []).2.1
